import Mathlib

/-!
Verification of the postgres MCP query-execution gateway
(`awslabs/postgres_mcp_server/server.py` and
`awslabs/postgres_mcp_server/connection/psycopg_pool_connection.py`).

The Python code is shallowly embedded: Python scalar values become the
inductive `PValue` (with Python's `isinstance` semantics, in particular
`bool` being a subclass of `int`); the typed-cell wire dictionaries become
the structure `Cell` of optional fields (a `some` field models key
presence); the connection-pool object state becomes `PCState`; the driver
and the two SQL detectors (whose module is an external collaborator of the
gateway) are abstracted by their outcomes, which the gateway only branches
on.
-/

/-- A Python scalar value as it flows through the gateway.  `other` stands
for any value of a type outside the six handled kinds and carries its
`str()` rendering, which is all the code ever uses of it. -/
inductive PValue where
  | none
  | str (s : String)
  | bool (b : Bool)
  | int (n : Int)
  | float (q : Rat)
  | bytes (bs : List UInt8)
  | other (strRepr : String)
deriving DecidableEq, Repr

/-- Python `isinstance(v, str)`. -/
def isinstStr : PValue → Bool
  | .str _ => true
  | _ => false

/-- Python `isinstance(v, int)`.  `bool` is a subclass of `int` in Python,
so booleans satisfy this check. -/
def isinstInt : PValue → Bool
  | .int _ => true
  | .bool _ => true
  | _ => false

/-- Python `isinstance(v, float)`. -/
def isinstFloat : PValue → Bool
  | .float _ => true
  | _ => false

/-- Python `isinstance(v, bool)`. -/
def isinstBool : PValue → Bool
  | .bool _ => true
  | _ => false

/-- Python `isinstance(v, bytes)`. -/
def isinstBytes : PValue → Bool
  | .bytes _ => true
  | _ => false

/-- Python truthiness of a value (`bool(v)`).  `other` values model
arbitrary objects, which are truthy by default. -/
def pyTruthy : PValue → Bool
  | .none => false
  | .str s => s ≠ ""
  | .bool b => b
  | .int n => n ≠ 0
  | .float q => q ≠ 0
  | .bytes bs => bs ≠ []
  | .other _ => true

/-- Python `str(v)` as used by the stringified fallback branch. -/
def pyStr : PValue → String
  | .other r => r
  | .str s => s
  | _ => ""

/-- A typed-cell dictionary.  Each field models one of the keys the code
consults; `some v` means the key is present and maps to the Python
value `v`.  The same shape serves result cells (read by `extract_cell`)
and parameter value dictionaries (read by `convert_parameters`). -/
structure Cell where
  isNull : Option PValue := Option.none
  stringValue : Option PValue := Option.none
  longValue : Option PValue := Option.none
  doubleValue : Option PValue := Option.none
  booleanValue : Option PValue := Option.none
  blobValue : Option PValue := Option.none
  arrayValue : Option PValue := Option.none
deriving DecidableEq, Repr

/-- Python `dict.get(key)`: the stored value if present, else `None`. -/
def dictGet (o : Option PValue) : PValue :=
  o.getD PValue.none

/-- The row-encoding branch of
`PsycopgPoolConnection.execute_query` (psycopg_pool_connection.py,
lines 124-142): the `if value is None / elif isinstance(...)` chain that
turns one native value into one typed cell.  The branch order is the
source's: None, str, int, float, bool, bytes, stringified fallback. -/
def encode_cell (v : PValue) : Cell :=
  if v = PValue.none then { isNull := some (PValue.bool true) }
  else if isinstStr v then { stringValue := some v }
  else if isinstInt v then { longValue := some v }
  else if isinstFloat v then { doubleValue := some v }
  else if isinstBool v then { booleanValue := some v }
  else if isinstBytes v then { blobValue := some v }
  else { stringValue := some (PValue.str (pyStr v)) }

/-- Row encoding in `execute_query`: each value of the fetched row is
appended as one cell. -/
def encode_row (row : List PValue) : List Cell :=
  row.map encode_cell

/-- `extract_cell` (server.py, lines 55-69): `if cell.get('isNull'):
return None`, then the first present key among stringValue, longValue,
doubleValue, booleanValue, blobValue, arrayValue wins; a cell with none
of them decodes to `None`. -/
def extract_cell (c : Cell) : PValue :=
  if pyTruthy (dictGet c.isNull) then PValue.none
  else match c.stringValue with
  | some v => v
  | Option.none => match c.longValue with
    | some v => v
    | Option.none => match c.doubleValue with
      | some v => v
      | Option.none => match c.booleanValue with
        | some v => v
        | Option.none => match c.blobValue with
          | some v => v
          | Option.none => match c.arrayValue with
            | some v => v
            | Option.none => PValue.none

/-- One structured parameter, `{'name': ..., 'value': {...}}`. -/
structure Param where
  name : String
  value : Cell
deriving DecidableEq, Repr

/-- The per-parameter key scan of
`PsycopgPoolConnection._convert_parameters` (psycopg_pool_connection.py,
lines 176-188): the first present key among stringValue, longValue,
doubleValue, booleanValue, blobValue binds its value; `isNull` binds
`None` only when present and truthy; otherwise the parameter contributes
nothing (`none`). -/
def convert_param_value (value : Cell) : Option PValue :=
  match value.stringValue with
  | some v => some v
  | Option.none => match value.longValue with
    | some v => some v
    | Option.none => match value.doubleValue with
      | some v => some v
      | Option.none => match value.booleanValue with
        | some v => some v
        | Option.none => match value.blobValue with
          | some v => some v
          | Option.none => match value.isNull with
            | some w => if pyTruthy w then some PValue.none else Option.none
            | Option.none => Option.none

/-- Python dict insertion: overwrite in place when the key exists, else
append at the end (insertion order preserved). -/
def dictInsert (d : List (String × PValue)) (k : String) (v : PValue) :
    List (String × PValue) :=
  if d.any (fun p => p.1 = k) then
    d.map (fun p => if p.1 = k then (k, v) else p)
  else d ++ [(k, v)]

/-- `PsycopgPoolConnection._convert_parameters` (lines 169-190): builds
the driver parameter dict, adding an entry only when the value dict
yields one. -/
def convert_parameters (ps : List Param) : List (String × PValue) :=
  ps.foldl
    (fun d p =>
      match convert_param_value p.value with
      | some v => dictInsert d p.name v
      | Option.none => d)
    []

/-- The `AsyncConnectionPool` object, reduced to the one attribute the
gateway's control flow depends on: whether `open()` has completed. -/
structure Pool where
  opened : Bool
deriving DecidableEq, Repr

/-- The mutable connection-management state of a `PsycopgPoolConnection`:
the `self.pool` attribute and the `self._pool_initialized` flag. -/
structure PCState where
  pool : Option Pool := Option.none
  pool_initialized : Bool := false
deriving DecidableEq, Repr

/-- `PsycopgPoolConnection.initialize_pool` (lines 50-73) in the
sequential model, where each `await` runs to completion before anyone
else observes the state: when `self.pool is None and not
self._pool_initialized`, the pool is created with `open=False`, then
opened, and the flag is set; otherwise nothing happens.  The best-effort
read-only administrative statement changes no modelled state. -/
def initialize_pool (s : PCState) : PCState :=
  if s.pool = Option.none ∧ s.pool_initialized = false then
    { pool := some { opened := true }, pool_initialized := true }
  else s

/-- Result of `_get_connection`: a connection handle on the pool object,
or the `ValueError` raised when the pool attribute is still `None`. -/
inductive AcquireResult where
  | conn (p : Pool)
  | valueError
deriving DecidableEq, Repr

/-- `PsycopgPoolConnection._get_connection` (lines 75-84): lazily
initialize when the flag is unset, then fail with `ValueError` if the
pool attribute is `None`, else hand out `self.pool.connection(...)`. -/
def get_connection (s : PCState) : AcquireResult × PCState :=
  let s1 := if s.pool_initialized = false then initialize_pool s else s
  match s1.pool with
  | Option.none => (AcquireResult.valueError, s1)
  | some p => (AcquireResult.conn p, s1)

/-- `PsycopgPoolConnection.close` (lines 261-268): when a pool exists,
close it, drop the attribute and reset the initialization flag;
otherwise do nothing. -/
def close (s : PCState) : PCState :=
  if s.pool ≠ Option.none then
    { pool := Option.none, pool_initialized := false }
  else s

/-- A Python exception as the gateway distinguishes them: botocore
`ClientError` versus everything else (type name and message). -/
inductive PyExc where
  | clientError (code msg : String)
  | other (typeName msg : String)
deriving DecidableEq, Repr

/-- The dictionary `execute_query` builds from a fetched result set. -/
structure Response where
  columnMetadata : List String
  records : List (List Cell)
deriving DecidableEq, Repr

/-- Abstraction of the driver round trip inside `execute_query`: the
statement either produces a response or raises. -/
inductive DriverOutcome where
  | success (resp : Response)
  | raises (e : PyExc)
deriving DecidableEq, Repr

/-- `PsycopgPoolConnection.execute_query` (lines 86-151) with the driver
round trip abstracted by `outcome`: ensure the pool is initialized,
acquire a connection (whose `ValueError` the `except` clause re-raises),
then return the driver's response or re-raise its exception
(`except Exception as e: raise e`). -/
def execute_query (s : PCState) (outcome : DriverOutcome) :
    Except PyExc Response × PCState :=
  let s1 := if s.pool_initialized = false then initialize_pool s else s
  match get_connection s1 with
  | (AcquireResult.valueError, s2) =>
      (Except.error (PyExc.other "ValueError" "Failed to initialize connection pool"), s2)
  | (AcquireResult.conn _, s2) =>
      match outcome with
      | DriverOutcome.success resp => (Except.ok resp, s2)
      | DriverOutcome.raises e => (Except.error e, s2)

/-- The resolved database connection as seen by the gateway: only its
read-only flag steers control flow. -/
structure Conn where
  readonly_query : Bool
deriving DecidableEq, Repr

/-- server.py line 35. -/
def client_error_code_key : String := "run_query ClientError code"

/-- server.py line 36. -/
def unexpected_error_key : String := "run_query unexpected error"

/-- server.py line 37. -/
def write_query_prohibited_key : String :=
  "Your MCP tool only allows readonly query. If you want to write, change the MCP configuration per README.md"

/-- server.py line 39. -/
def query_injection_risk_key : String :=
  "Your query contains risky injection patterns"

/-- server.py line 139. -/
def no_connection_error_key : String := "No database connection available"

/-- The one-row error sentinel the gateway returns on every failure. -/
def errorRow (key : String) : List (String × PValue) :=
  [("error", PValue.str key)]

/-- `parse_execute_response` (server.py, lines 72-81): zip each record's
cells with the column names, decoding each cell. -/
def parse_execute_response (resp : Response) : List (List (String × PValue)) :=
  resp.records.map (fun row => List.zip resp.columnMetadata (row.map extract_cell))

/-- The connection-resolution block of `run_query` (server.py, lines
127-142): use the explicit argument when given; otherwise the singleton
connection (`some c` models `DBConnectionSingleton.get().db_connection`
succeeding, `none` the `RuntimeError` of an uninitialized singleton);
otherwise the global direct connection. -/
def resolve_connection (dbc singletonConn globalConn : Option Conn) : Option Conn :=
  match dbc with
  | some c => some c
  | Option.none =>
    match singletonConn with
    | some c => some c
    | Option.none => globalConn

/-- `run_query` (server.py, lines 103-181) with the two detector results
and the driver outcome as parameters: resolve the connection (error row
when none is available), reject on mutation keywords when read-only,
then reject on injection issues, else execute and either parse the
response or map the caught exception to its error row.  The `PCState`
is the pool state of the resolved connection, threaded through. -/
def run_query (dbc singletonConn globalConn : Option Conn) (st : PCState)
    (mutMatches injIssues : List String) (outcome : DriverOutcome) :
    Except PyExc (List (List (String × PValue))) × PCState :=
  match resolve_connection dbc singletonConn globalConn with
  | Option.none => (Except.ok [errorRow no_connection_error_key], st)
  | some c =>
    if c.readonly_query ∧ mutMatches ≠ [] then
      (Except.ok [errorRow write_query_prohibited_key], st)
    else if injIssues ≠ [] then
      (Except.ok [errorRow query_injection_risk_key], st)
    else
      match execute_query st outcome with
      | (Except.ok resp, st2) => (Except.ok (parse_execute_response resp), st2)
      | (Except.error (PyExc.clientError _ _), st2) =>
          (Except.ok [errorRow client_error_code_key], st2)
      | (Except.error (PyExc.other _ _), st2) =>
          (Except.ok [errorRow unexpected_error_key], st2)

/-- Whether a `run_query` call invokes `check_sql_injection_risk`
(server.py line 153): control reaches it exactly when a connection was
resolved and the read-only mutation gate did not return first. -/
def run_query_injection_checked (dbc singletonConn globalConn : Option Conn)
    (mutMatches : List String) : Bool :=
  match resolve_connection dbc singletonConn globalConn with
  | Option.none => false
  | some c => !(c.readonly_query && !mutMatches.isEmpty)

/-- Whether a `run_query` call invokes `detect_mutating_keywords`
(server.py line 145): only when a connection was resolved and it is
configured read-only. -/
def run_query_mutation_checked (dbc singletonConn globalConn : Option Conn) : Bool :=
  match resolve_connection dbc singletonConn globalConn with
  | Option.none => false
  | some c => c.readonly_query

/-- Global state of the concurrency model of lazy initialization:
`self.pool`, `self._pool_initialized`, and a count of pool-open
sequences started. -/
structure CState where
  pool : Option Pool
  pool_initialized : Bool
  openCount : Nat
deriving DecidableEq, Repr

/-- Program counter of one caller running `_get_connection` under the
asyncio cooperative model: code between `await` suspension points runs
atomically.  `waitOpen` is the suspension at `await self.pool.open()`;
`done (some p)` records the pool object on which the caller was handed
a connection checkout (`p.opened` tells whether `open()` had completed
by then); `done none` is the `ValueError` path. -/
inductive TaskPC where
  | ready
  | waitOpen
  | done (acquired : Option Pool)
deriving DecidableEq, Repr

/-- One atomic step of a caller in `_get_connection` (readonly mode off,
so `initialize_pool` has no further suspension after `open()`).  From
`ready`: when the flag is unset and the pool attribute is `None`, create
the unopened pool and suspend at `await self.pool.open()`; when the pool
attribute is already set, `initialize_pool`'s guard fails, and the
caller passes the `self.pool is None` check and is handed a checkout on
the current pool object in the same atomic segment.  From `waitOpen`:
`open()` completes, the flag is set, and the caller gets its checkout. -/
def task_step (g : CState) (t : TaskPC) : CState × TaskPC :=
  match t with
  | TaskPC.ready =>
    if g.pool_initialized = false then
      match g.pool with
      | Option.none =>
          ({ pool := some { opened := false }, pool_initialized := g.pool_initialized,
             openCount := g.openCount + 1 }, TaskPC.waitOpen)
      | some p => (g, TaskPC.done (some p))
    else
      match g.pool with
      | Option.none => (g, TaskPC.done Option.none)
      | some p => (g, TaskPC.done (some p))
  | TaskPC.waitOpen =>
      ({ pool := some { opened := true }, pool_initialized := true,
         openCount := g.openCount }, TaskPC.done (some { opened := true }))
  | TaskPC.done r => (g, TaskPC.done r)

/-- Run two concurrent callers under an explicit schedule: `true` steps
the first caller, `false` the second. -/
def sched_run (g : CState) (ts : TaskPC × TaskPC) :
    List Bool → CState × (TaskPC × TaskPC)
  | [] => (g, ts)
  | pick :: rest =>
    if pick then
      let s := task_step g ts.1
      sched_run s.1 (s.2, ts.2) rest
    else
      let s := task_step g ts.2
      sched_run s.1 (ts.1, s.2) rest

/-- ASCII fragment of the regex word-character class `\w`
(letters, digits, underscore), used by the `\b` boundary of the
parameter-rewrite pattern. -/
def wordChar (c : Char) : Bool :=
  c.isAlphanum || c = '_'

/-- Whether a word boundary holds between the last character of a
word-character name and the given remainder of the input: the remainder
is empty or starts with a non-word character. -/
def headBoundary : List Char → Bool
  | [] => true
  | c :: _ => !wordChar c

/-- The replacement text `%(name)s` of
`_convert_named_parameters_to_psycopg`. -/
def pgPlaceholder (n : List Char) : List Char :=
  '%' :: '(' :: (n ++ [')', 's'])

/-- Fuel-indexed left-to-right scan of Python
`re.sub(':name\x5cb', '%(name)s', sql)` for a name made of word
characters (so the trailing `\x5cb` holds exactly when the next
character is not a word character or the input ends): find each
non-overlapping occurrence, emit the placeholder, and continue right
after the match.  The fuel only drives termination; it is set to the
input length, which the scan never exhausts. -/
def reSubAux (n : List Char) : Nat → List Char → List Char
  | 0, s => s
  | _ + 1, [] => []
  | fuel + 1, c :: rest =>
    if c = ':' ∧ n.isPrefixOf rest ∧ headBoundary (rest.drop n.length) then
      pgPlaceholder n ++ reSubAux n fuel (rest.drop n.length)
    else
      c :: reSubAux n fuel rest

/-- `re.sub` of the pattern `:name\x5cb` with replacement `%(name)s`. -/
def reSubColonName (n : List Char) (s : List Char) : List Char :=
  reSubAux n s.length s

/-- `PsycopgPoolConnection._convert_named_parameters_to_psycopg`
(psycopg_pool_connection.py, lines 192-209): one `re.sub` pass per
parameter name over the SQL text, in dict order.  The function also
returns the parameter dict unchanged; only the rewritten SQL is
modelled. -/
def convert_named_parameters_to_psycopg (sql : List Char)
    (names : List (List Char)) : List Char :=
  names.foldl (fun s n => reSubColonName n s) sql

/-- Fuel-indexed single-pass rewriter following the specification's
words: at each colon, read the maximal identifier (word-character run)
after it; when it is non-empty and present in the parameter map, replace
the colon-prefixed identifier with the native placeholder; otherwise
leave it untouched and continue after it. -/
def rewriteSpecAux (names : List (List Char)) : Nat → List Char → List Char
  | 0, s => s
  | _ + 1, [] => []
  | fuel + 1, c :: rest =>
    if c = ':' then
      if rest.takeWhile wordChar ≠ [] ∧ rest.takeWhile wordChar ∈ names then
        pgPlaceholder (rest.takeWhile wordChar) ++
          rewriteSpecAux names fuel (rest.drop (rest.takeWhile wordChar).length)
      else
        c :: (rest.takeWhile wordChar ++
          rewriteSpecAux names fuel (rest.drop (rest.takeWhile wordChar).length))
    else
      c :: rewriteSpecAux names fuel rest

/-- Specification-side rewriter: every occurrence of a colon-prefixed
identifier whose name is in the parameter map, bounded on the right by
a word boundary, becomes the driver placeholder; every other
colon-prefixed identifier is left untouched. -/
def rewriteSpec (names : List (List Char)) (s : List Char) : List Char :=
  rewriteSpecAux names s.length s

/-- Helper: folding skips elements on which the step is the identity, so
the fold equals the fold over the filtered list. -/
theorem foldl_filter_skip {α β : Type} (f : β → α → β) (keep : α → Bool)
    (h : ∀ b a, keep a = false → f b a = b) :
    ∀ (l : List α) (b : β), l.foldl f b = (l.filter keep).foldl f b := by
  intro l
  induction l with
  | nil => intro b; rfl
  | cons a l ih =>
    intro b
    by_cases ha : keep a = true
    · simp [List.filter_cons, ha, List.foldl_cons, ih]
    · have ha' : keep a = false := by
        cases hk : keep a
        · rfl
        · exact absurd hk ha
      simp [List.filter_cons, ha', List.foldl_cons, h b a ha', ih]

/-- C2.  The Safety of the encoding precedence fails for booleans: since
Python's `bool` is a subclass of `int`, the `isinstance(value, int)`
branch of `execute_query` captures `True` and `False`, so a boolean is
encoded as a `longValue` cell, and the `booleanValue` branch is
unreachable for every input.  (The other half of the claim holds: an
integer is encoded as `longValue`, never as a `doubleValue` cell.) -/
theorem encode_cell_bool_goes_to_longValue :
    encode_cell (PValue.bool true) = { longValue := some (PValue.bool true) } ∧
    encode_cell (PValue.bool false) = { longValue := some (PValue.bool false) } ∧
    (∀ v : PValue, (encode_cell v).booleanValue = Option.none) ∧
    (∀ n : Int, encode_cell (PValue.int n) = { longValue := some (PValue.int n) }) := by
  refine ⟨rfl, rfl, ?_, ?_⟩
  · intro v
    cases v <;> simp [encode_cell, isinstStr, isinstInt, isinstFloat, isinstBool, isinstBytes]
  · intro n
    simp [encode_cell, isinstStr, isinstInt]

/-- C3.  Encode/decode round trip: a row holding one value of each of the
six typed-value kinds comes back from `encode_row` followed by
`extract_cell` exactly as it went in, type for type.  (This holds even
for booleans: the cell dictionary stores the Python object itself under
`longValue`, and `extract_cell` returns that stored object unchanged.) -/
theorem encode_decode_round_trip (s : String) (n : Int) (q : Rat) (b : Bool)
    (bs : List UInt8) :
    (encode_row [PValue.none, PValue.str s, PValue.int n, PValue.float q,
        PValue.bool b, PValue.bytes bs]).map extract_cell =
      [PValue.none, PValue.str s, PValue.int n, PValue.float q,
        PValue.bool b, PValue.bytes bs] := by
  simp [encode_row, encode_cell, extract_cell, isinstStr, isinstInt, isinstFloat,
    isinstBool, isinstBytes, dictGet, pyTruthy]

/-- C9.  `extract_cell` accepts the seventh cell kind `arrayValue`,
returning the stored value rather than null, and a truthy `isNull` takes
precedence over every populated value key. -/
theorem extract_cell_arrayValue_and_isNull_precedence (v : PValue) (c : Cell)
    (h : c.isNull = some (PValue.bool true)) :
    extract_cell { arrayValue := some v } = v ∧ extract_cell c = PValue.none := by
  constructor
  · rfl
  · simp [extract_cell, h, dictGet, pyTruthy]

/-- Witness for C9 at a concrete cell whose `isNull` is set while a value
key is also populated. -/
theorem extract_cell_arrayValue_and_isNull_precedence_witness :
    extract_cell { arrayValue := some (PValue.str "x") } = PValue.str "x" ∧
    extract_cell { isNull := some (PValue.bool true), stringValue := some (PValue.str "y") } = PValue.none :=
  extract_cell_arrayValue_and_isNull_precedence (PValue.str "x")
    { isNull := some (PValue.bool true), stringValue := some (PValue.str "y") } rfl

/-- C10.  A parameter whose value dictionary yields no recognized key
(for example an empty dictionary, or `isNull` present but false) is
silently dropped by `_convert_parameters`: the resulting driver map is
the one built from the recognized parameters alone, and on the two
concrete shapes the map is empty rather than binding null or failing. -/
theorem convert_parameters_omits_unrecognized (ps : List Param) :
    convert_parameters ps =
      convert_parameters (ps.filter (fun p => (convert_param_value p.value).isSome)) ∧
    convert_parameters [{ name := "x", value := {} }] = [] ∧
    convert_parameters [{ name := "x", value := { isNull := some (PValue.bool false) } }] = [] := by
  refine ⟨?_, rfl, rfl⟩
  unfold convert_parameters
  refine foldl_filter_skip _ _ ?_ ps []
  intro b a ha
  have hnone : convert_param_value a.value = Option.none := by
    cases hv : convert_param_value a.value
    · rfl
    · rw [hv] at ha; simp at ha
  simp [hnone]

/-- C4 counterexample.  With a read-only connection and a statement on
which the mutation scan matched, `run_query` returns before ever calling
`check_sql_injection_risk`: the injection check is not run, refuting
that both Safety Gate checks run even when one of them has already
failed. -/
theorem run_query_skips_injection_check_counterexample :
    run_query_injection_checked (some { readonly_query := true }) Option.none Option.none
      ["INSERT"] = false := rfl

/-- C4 (amended).  The Safety Gate checks run sequentially with an early
return, not both: the mutation scan runs exactly when the connection is
read-only; when it matches, `run_query` returns the mutation rejection
immediately and the injection check is not run (so mutation-detected
takes precedence); otherwise the injection check runs and rejects when
it reports issues. -/
theorem run_query_gate_sequencing (c : Conn) (st : PCState)
    (mutMatches injIssues : List String) (outcome : DriverOutcome) :
    run_query_mutation_checked (some c) Option.none Option.none = c.readonly_query ∧
    (c.readonly_query = true → mutMatches ≠ [] →
      (run_query (some c) Option.none Option.none st mutMatches injIssues outcome).1 =
        Except.ok [errorRow write_query_prohibited_key] ∧
      run_query_injection_checked (some c) Option.none Option.none mutMatches = false) ∧
    (¬(c.readonly_query = true ∧ mutMatches ≠ []) →
      run_query_injection_checked (some c) Option.none Option.none mutMatches = true ∧
      (injIssues ≠ [] →
        (run_query (some c) Option.none Option.none st mutMatches injIssues outcome).1 =
          Except.ok [errorRow query_injection_risk_key])) := by
  refine ⟨rfl, ?_, ?_⟩
  · intro hro hmut
    constructor
    · simp [run_query, resolve_connection, hro, hmut]
    · simp [run_query_injection_checked, resolve_connection, hro, hmut]
  · intro hng
    constructor
    · simp only [run_query_injection_checked, resolve_connection]
      cases hro : c.readonly_query
      · simp
      · have hmut : mutMatches = [] := by
          by_contra hne
          exact hng ⟨hro, hne⟩
        simp [hmut]
    · intro hinj
      simp [run_query, resolve_connection, hng, hinj]

/-- Witness for C4's amended theorem: a read-only connection with both a
mutation match and an injection issue yields the mutation rejection. -/
theorem run_query_gate_sequencing_witness :
    (run_query (some { readonly_query := true }) Option.none Option.none {}
        ["INSERT"] ["comment detected"]
        (DriverOutcome.success { columnMetadata := [], records := [] })).1 =
      Except.ok [errorRow write_query_prohibited_key] :=
  ((run_query_gate_sequencing { readonly_query := true } {} ["INSERT"]
      ["comment detected"]
      (DriverOutcome.success { columnMetadata := [], records := [] })).2.1
    rfl (by decide)).1

/-- C5.  A statement rejected by the Safety Gate (mutation keywords under
read-only mode, or injection issues) returns its error row with the
connection-pool state exactly as it was: no acquisition happens, and in
particular an uninitialized pool stays uninitialized. -/
theorem run_query_rejection_frame (c : Conn) (st : PCState)
    (mutMatches injIssues : List String) (outcome : DriverOutcome)
    (h : (c.readonly_query = true ∧ mutMatches ≠ []) ∨ injIssues ≠ []) :
    (run_query (some c) Option.none Option.none st mutMatches injIssues outcome).2 = st ∧
    ∃ key, (run_query (some c) Option.none Option.none st mutMatches injIssues outcome).1 =
      Except.ok [errorRow key] := by
  by_cases hmut : c.readonly_query = true ∧ mutMatches ≠ []
  · constructor
    · simp [run_query, resolve_connection, hmut]
    · exact ⟨write_query_prohibited_key, by simp [run_query, resolve_connection, hmut]⟩
  · have hinj : injIssues ≠ [] := h.resolve_left hmut
    constructor
    · simp [run_query, resolve_connection, hmut, hinj]
    · exact ⟨query_injection_risk_key, by simp [run_query, resolve_connection, hmut, hinj]⟩

/-- Witness for C5 on a concrete rejected statement against an
uninitialized pool. -/
theorem run_query_rejection_frame_witness :
    (run_query (some { readonly_query := true }) Option.none Option.none
        { pool := Option.none, pool_initialized := false } ["DROP"] []
        (DriverOutcome.success { columnMetadata := [], records := [] })).2 =
      { pool := Option.none, pool_initialized := false } :=
  (run_query_rejection_frame { readonly_query := true }
    { pool := Option.none, pool_initialized := false } ["DROP"] []
    (DriverOutcome.success { columnMetadata := [], records := [] })
    (Or.inl ⟨rfl, by decide⟩)).1

/-- C6 counterexample.  Acquiring a connection after `close()` on a ready
pool does not fail fast with a pool-closed error: because `close` resets
`_pool_initialized`, `_get_connection` re-initializes the pool and
returns a connection from the freshly opened pool. -/
theorem get_connection_after_close_counterexample :
    get_connection (close { pool := some { opened := true }, pool_initialized := true }) =
      (AcquireResult.conn { opened := true },
        { pool := some { opened := true }, pool_initialized := true }) := rfl

/-- C6 (amended).  `close()` drains the pool and resets the
initialization flag, and a subsequent acquisition, instead of failing
fast with a pool-closed error, performs a full lazy re-initialization
and succeeds with a connection from the newly opened pool. -/
theorem get_connection_after_close_reinitializes (s : PCState)
    (h : s.pool ≠ Option.none) :
    close s = { pool := Option.none, pool_initialized := false } ∧
    get_connection (close s) =
      (AcquireResult.conn { opened := true },
        { pool := some { opened := true }, pool_initialized := true }) := by
  constructor
  · simp [close, h]
  · simp [close, h]
    rfl

/-- Witness for C6's amended theorem at a ready pool. -/
theorem get_connection_after_close_reinitializes_witness :
    get_connection (close { pool := some { opened := true }, pool_initialized := true }) =
      (AcquireResult.conn { opened := true },
        { pool := some { opened := true }, pool_initialized := true }) :=
  (get_connection_after_close_reinitializes
    { pool := some { opened := true }, pool_initialized := true } (by decide)).2

/-- C7.  `run_query` never propagates a raised fault: for every input it
returns a value (`Except.ok`), and whenever the call fails — no
connection available, Safety Gate rejection, or an exception from the
driver — the returned value is a one-element list whose single row
carries the `error` field naming the error category. -/
theorem run_query_never_raises (dbc singletonConn globalConn : Option Conn)
    (st : PCState) (mutMatches injIssues : List String) (outcome : DriverOutcome) :
    (∃ rows,
      (run_query dbc singletonConn globalConn st mutMatches injIssues outcome).1 =
        Except.ok rows) ∧
    ((resolve_connection dbc singletonConn globalConn = Option.none ∨
      (∃ c, resolve_connection dbc singletonConn globalConn = some c ∧
        ((c.readonly_query = true ∧ mutMatches ≠ []) ∨ injIssues ≠ [] ∨
          ∃ e, outcome = DriverOutcome.raises e))) →
      ∃ key,
        (run_query dbc singletonConn globalConn st mutMatches injIssues outcome).1 =
          Except.ok [errorRow key]) := by
  cases hres : resolve_connection dbc singletonConn globalConn with
  | none =>
    constructor
    · exact ⟨[errorRow no_connection_error_key], by simp [run_query, hres]⟩
    · intro _
      exact ⟨no_connection_error_key, by simp [run_query, hres]⟩
  | some c =>
    by_cases hmut : c.readonly_query = true ∧ mutMatches ≠ []
    · constructor
      · exact ⟨[errorRow write_query_prohibited_key], by simp [run_query, hres, hmut]⟩
      · intro _
        exact ⟨write_query_prohibited_key, by simp [run_query, hres, hmut]⟩
    · by_cases hinj : injIssues ≠ []
      · constructor
        · exact ⟨[errorRow query_injection_risk_key], by simp [run_query, hres, hmut, hinj]⟩
        · intro _
          exact ⟨query_injection_risk_key, by simp [run_query, hres, hmut, hinj]⟩
      · obtain ⟨pl, ini⟩ := st
        cases outcome with
        | success resp =>
          constructor
          · cases pl with
            | none =>
              cases ini with
              | false =>
                exact ⟨parse_execute_response resp,
                  by simp [run_query, hres, hmut, hinj, execute_query,
                    get_connection, initialize_pool]⟩
              | true =>
                exact ⟨[errorRow unexpected_error_key],
                  by simp [run_query, hres, hmut, hinj, execute_query,
                    get_connection, initialize_pool]⟩
            | some p =>
              cases ini with
              | false =>
                exact ⟨parse_execute_response resp,
                  by simp [run_query, hres, hmut, hinj, execute_query,
                    get_connection, initialize_pool]⟩
              | true =>
                exact ⟨parse_execute_response resp,
                  by simp [run_query, hres, hmut, hinj, execute_query,
                    get_connection, initialize_pool]⟩
          · intro hfail
            rcases hfail with hnone | ⟨c2, hc2, hbad⟩
            · cases hnone
            · cases hc2
              rcases hbad with hb | hb | ⟨e, he⟩
              · exact absurd hb hmut
              · exact absurd hb hinj
              · cases he
        | raises e =>
          have hkey : ∃ key,
              (run_query dbc singletonConn globalConn ⟨pl, ini⟩ mutMatches injIssues
                (DriverOutcome.raises e)).1 = Except.ok [errorRow key] := by
            cases pl with
            | none =>
              cases ini with
              | false =>
                cases e with
                | clientError code msg =>
                  exact ⟨client_error_code_key,
                    by simp [run_query, hres, hmut, hinj, execute_query,
                      get_connection, initialize_pool]⟩
                | other t m =>
                  exact ⟨unexpected_error_key,
                    by simp [run_query, hres, hmut, hinj, execute_query,
                      get_connection, initialize_pool]⟩
              | true =>
                exact ⟨unexpected_error_key,
                  by simp [run_query, hres, hmut, hinj, execute_query,
                    get_connection, initialize_pool]⟩
            | some p =>
              cases ini with
              | false =>
                cases e with
                | clientError code msg =>
                  exact ⟨client_error_code_key,
                    by simp [run_query, hres, hmut, hinj, execute_query,
                      get_connection, initialize_pool]⟩
                | other t m =>
                  exact ⟨unexpected_error_key,
                    by simp [run_query, hres, hmut, hinj, execute_query,
                      get_connection, initialize_pool]⟩
              | true =>
                cases e with
                | clientError code msg =>
                  exact ⟨client_error_code_key,
                    by simp [run_query, hres, hmut, hinj, execute_query,
                      get_connection, initialize_pool]⟩
                | other t m =>
                  exact ⟨unexpected_error_key,
                    by simp [run_query, hres, hmut, hinj, execute_query,
                      get_connection, initialize_pool]⟩
          obtain ⟨key, hk⟩ := hkey
          exact ⟨⟨[errorRow key], hk⟩, fun _ => ⟨key, hk⟩⟩

/-- Witness for C7 at a concrete driver exception. -/
theorem run_query_never_raises_witness :
    ∃ key,
      (run_query (some { readonly_query := false }) Option.none Option.none {} [] []
          (DriverOutcome.raises (PyExc.other "TypeError" "boom"))).1 =
        Except.ok [errorRow key] :=
  (run_query_never_raises (some { readonly_query := false }) Option.none Option.none
      {} [] [] (DriverOutcome.raises (PyExc.other "TypeError" "boom"))).2
    (Or.inr ⟨{ readonly_query := false }, rfl,
      Or.inr (Or.inr ⟨PyExc.other "TypeError" "boom", rfl⟩)⟩)

/-- C1.  Concurrent lazy initialization is racy: starting from an
uninitialized pool, run caller one until it suspends at
`await self.pool.open()`, then run caller two to completion, then let
caller one resume.  Exactly one pool-open sequence is started
(`openCount = 1`), but caller two slips past `initialize_pool`'s guard
(the pool attribute is already set) and past the `self.pool is None`
check, and is handed a connection checkout on the pool object while its
`open()` is still pending — it observes a partially-open pool, which the
claim says can never happen, and in psycopg its checkout fails while
caller one's succeeds. -/
theorem concurrent_init_partial_pool_trace :
    sched_run { pool := Option.none, pool_initialized := false, openCount := 0 }
      (TaskPC.ready, TaskPC.ready) [true, false, true] =
      ({ pool := some { opened := true }, pool_initialized := true, openCount := 1 },
        (TaskPC.done (some { opened := true }), TaskPC.done (some { opened := false }))) := rfl

/-- Helper: the scan result does not depend on the fuel once the fuel
covers the input length. -/
theorem reSubAux_fuel_irrelevant (n : List Char) :
    ∀ (f1 : Nat) (s : List Char) (f2 : Nat), s.length ≤ f1 → s.length ≤ f2 →
      reSubAux n f1 s = reSubAux n f2 s := by
  intro f1
  induction f1 with
  | zero =>
    intro s f2 h1 _
    have hs : s = [] := List.eq_nil_of_length_eq_zero (Nat.le_zero.mp h1)
    subst hs
    cases f2 <;> rfl
  | succ f ih =>
    intro s f2 h1 h2
    cases s with
    | nil => cases f2 <;> rfl
    | cons c rest =>
      cases f2 with
      | zero => simp at h2
      | succ g =>
        simp only [reSubAux]
        have hrest : rest.length ≤ f := by
          simp only [List.length_cons] at h1
          omega
        have hrest2 : rest.length ≤ g := by
          simp only [List.length_cons] at h2
          omega
        have hdrop : (rest.drop n.length).length ≤ rest.length := by
          simp [List.length_drop]
        split
        · rw [ih (rest.drop n.length) g (le_trans hdrop hrest) (le_trans hdrop hrest2)]
        · rw [ih rest g hrest hrest2]

/-- Unfolding: the scan of the empty input. -/
theorem reSubColonName_nil (n : List Char) : reSubColonName n [] = [] := rfl

/-- Unfolding: one step of the `re.sub` scan. -/
theorem reSubColonName_cons (n : List Char) (c : Char) (rest : List Char) :
    reSubColonName n (c :: rest) =
      if c = ':' ∧ n.isPrefixOf rest ∧ headBoundary (rest.drop n.length) then
        pgPlaceholder n ++ reSubColonName n (rest.drop n.length)
      else c :: reSubColonName n rest := by
  show reSubAux n (c :: rest).length (c :: rest) = _
  simp only [List.length_cons, reSubAux]
  have hdrop : (rest.drop n.length).length ≤ rest.length := by
    simp [List.length_drop]
  split
  · rw [reSubAux_fuel_irrelevant n rest.length (rest.drop n.length)
      (rest.drop n.length).length hdrop le_rfl]
    rfl
  · rfl

/-- Helper: the spec-side rewrite result does not depend on the fuel once
the fuel covers the input length. -/
theorem rewriteSpecAux_fuel_irrelevant (ns : List (List Char)) :
    ∀ (f1 : Nat) (s : List Char) (f2 : Nat), s.length ≤ f1 → s.length ≤ f2 →
      rewriteSpecAux ns f1 s = rewriteSpecAux ns f2 s := by
  intro f1
  induction f1 with
  | zero =>
    intro s f2 h1 _
    have hs : s = [] := List.eq_nil_of_length_eq_zero (Nat.le_zero.mp h1)
    subst hs
    cases f2 <;> rfl
  | succ f ih =>
    intro s f2 h1 h2
    cases s with
    | nil => cases f2 <;> rfl
    | cons c rest =>
      cases f2 with
      | zero => simp at h2
      | succ g =>
        simp only [rewriteSpecAux]
        have hrest : rest.length ≤ f := by
          simp only [List.length_cons] at h1
          omega
        have hrest2 : rest.length ≤ g := by
          simp only [List.length_cons] at h2
          omega
        have hdrop : (rest.drop (rest.takeWhile wordChar).length).length ≤ rest.length := by
          simp [List.length_drop]
        split
        · split
          · rw [ih (rest.drop (rest.takeWhile wordChar).length) g
              (le_trans hdrop hrest) (le_trans hdrop hrest2)]
          · rw [ih (rest.drop (rest.takeWhile wordChar).length) g
              (le_trans hdrop hrest) (le_trans hdrop hrest2)]
        · rw [ih rest g hrest hrest2]

/-- Unfolding: the spec-side rewrite of the empty input. -/
theorem rewriteSpec_nil (ns : List (List Char)) : rewriteSpec ns [] = [] := rfl

/-- Unfolding: one step of the spec-side rewrite. -/
theorem rewriteSpec_cons (ns : List (List Char)) (c : Char) (rest : List Char) :
    rewriteSpec ns (c :: rest) =
      if c = ':' then
        if rest.takeWhile wordChar ≠ [] ∧ rest.takeWhile wordChar ∈ ns then
          pgPlaceholder (rest.takeWhile wordChar) ++
            rewriteSpec ns (rest.drop (rest.takeWhile wordChar).length)
        else
          c :: (rest.takeWhile wordChar ++
            rewriteSpec ns (rest.drop (rest.takeWhile wordChar).length))
      else c :: rewriteSpec ns rest := by
  show rewriteSpecAux ns (c :: rest).length (c :: rest) = _
  simp only [List.length_cons, rewriteSpecAux]
  have hdrop : (rest.drop (rest.takeWhile wordChar).length).length ≤ rest.length := by
    simp [List.length_drop]
  split
  · split
    · rw [rewriteSpecAux_fuel_irrelevant ns rest.length
        (rest.drop (rest.takeWhile wordChar).length)
        (rest.drop (rest.takeWhile wordChar).length).length hdrop le_rfl]
      rfl
    · rw [rewriteSpecAux_fuel_irrelevant ns rest.length
        (rest.drop (rest.takeWhile wordChar).length)
        (rest.drop (rest.takeWhile wordChar).length).length hdrop le_rfl]
      rfl
  · rfl

/-- Helper: a word character is not a colon. -/
theorem wordChar_ne_colon (c : Char) (h : wordChar c = true) : c ≠ ':' := by
  intro hc
  subst hc
  simp [wordChar] at h

/-- Helper: the placeholder text contains no colon when the name is made
of word characters. -/
theorem pgPlaceholder_no_colon (n : List Char) (hw : ∀ c ∈ n, wordChar c = true) :
    ∀ c ∈ pgPlaceholder n, c ≠ ':' := by
  intro c hc
  simp only [pgPlaceholder, List.mem_cons, List.mem_append] at hc
  rcases hc with rfl | rfl | hn | hend
  · decide
  · decide
  · exact wordChar_ne_colon c (hw c hn)
  · rcases hend with rfl | hend
    · decide
    · rcases hend with rfl | h0
      · decide
      · cases h0

/-- Helper: the `re.sub` scan copies a colon-free block verbatim. -/
theorem reSubColonName_append_no_colon (n : List Char) :
    ∀ (l X : List Char), (∀ c ∈ l, c ≠ ':') →
      reSubColonName n (l ++ X) = l ++ reSubColonName n X := by
  intro l
  induction l with
  | nil => intro X _; rfl
  | cons c l ih =>
    intro X hl
    have hc : ¬(c = ':' ∧ n.isPrefixOf (l ++ X) ∧
        headBoundary ((l ++ X).drop n.length)) := by
      rintro ⟨hcc, -⟩
      exact hl c (List.mem_cons_self c l) hcc
    rw [List.cons_append, reSubColonName_cons, if_neg hc,
      ih X (fun d hd => hl d (List.mem_cons_of_mem c hd))]
    simp

/-- Helper: the spec-side rewrite copies a colon-free block verbatim. -/
theorem rewriteSpec_append_no_colon (ns : List (List Char)) :
    ∀ (l X : List Char), (∀ c ∈ l, c ≠ ':') →
      rewriteSpec ns (l ++ X) = l ++ rewriteSpec ns X := by
  intro l
  induction l with
  | nil => intro X _; rfl
  | cons c l ih =>
    intro X hl
    rw [List.cons_append, rewriteSpec_cons,
      if_neg (hl c (List.mem_cons_self c l)),
      ih X (fun d hd => hl d (List.mem_cons_of_mem c hd))]
    simp

/-- Helper: the `re.sub` scan preserves a leading word boundary: if the
input is empty or starts with a non-word character, so does its image
(the placeholder starts with a percent sign). -/
theorem headBoundary_reSubColonName (n X : List Char) (h : headBoundary X = true) :
    headBoundary (reSubColonName n X) = true := by
  cases X with
  | nil => rfl
  | cons c rest =>
    rw [reSubColonName_cons]
    split
    · simp [pgPlaceholder, headBoundary, wordChar]
    · simpa [headBoundary] using h

/-- Helper: taking word characters from a word block followed by a
boundary recovers exactly the block. -/
theorem takeWhile_word_append (w X : List Char) (hw : ∀ c ∈ w, wordChar c = true)
    (hX : headBoundary X = true) : (w ++ X).takeWhile wordChar = w := by
  induction w with
  | nil =>
    cases X with
    | nil => rfl
    | cons c rest =>
      simp only [headBoundary, Bool.not_eq_true'] at hX
      simp [List.takeWhile_cons, hX]
  | cons a w ih =>
    simp only [List.cons_append, List.takeWhile_cons,
      hw a (List.mem_cons_self a w), if_true]
    rw [ih (fun d hd => hw d (List.mem_cons_of_mem a hd))]

/-- Helper: dropping the word characters always leaves a word boundary. -/
theorem headBoundary_dropWhile (l : List Char) :
    headBoundary (l.dropWhile wordChar) = true := by
  induction l with
  | nil => rfl
  | cons c rest ih =>
    rw [List.dropWhile_cons]
    split
    · exact ih
    · simp_all [headBoundary]

/-- Helper: dropping the word characters is the same as dropping the
length of the word run. -/
theorem dropWhile_wordChar_eq_drop (l : List Char) :
    l.dropWhile wordChar = l.drop (l.takeWhile wordChar).length := by
  induction l with
  | nil => rfl
  | cons c rest ih =>
    by_cases hc : wordChar c = true
    · simp [List.dropWhile_cons, List.takeWhile_cons, hc, ih]
    · simp [List.dropWhile_cons, List.takeWhile_cons, hc]

/-- Helper: for a non-empty name made of word characters, the pattern
matches at a colon (name is a prefix and a word boundary follows)
exactly when the maximal word run equals the name. -/
theorem match_iff_takeWhile (n rest : List Char) (_hne : n ≠ [])
    (hw : ∀ c ∈ n, wordChar c = true) :
    (n.isPrefixOf rest = true ∧ headBoundary (rest.drop n.length) = true) ↔
      rest.takeWhile wordChar = n := by
  constructor
  · rintro ⟨hp, hb⟩
    have hpre : n <+: rest := List.isPrefixOf_iff_prefix.mp hp
    obtain ⟨t, rfl⟩ := hpre
    rw [List.drop_left] at hb
    rw [takeWhile_word_append n t hw hb]
  · intro ht
    have hpre : n <+: rest := by
      rw [← ht]
      exact List.takeWhile_prefix wordChar
    refine ⟨List.isPrefixOf_iff_prefix.mpr hpre, ?_⟩
    have hdrop : rest.drop n.length = rest.dropWhile wordChar := by
      rw [dropWhile_wordChar_eq_drop, ht]
    rw [hdrop]
    exact headBoundary_dropWhile rest

/-- Helper: the spec-side rewrite with an empty parameter map is the
identity. -/
theorem rewriteSpec_no_names :
    ∀ (k : Nat) (X : List Char), X.length ≤ k → rewriteSpec [] X = X := by
  intro k
  induction k with
  | zero =>
    intro X hX
    rw [List.eq_nil_of_length_eq_zero (Nat.le_zero.mp hX)]
    rfl
  | succ k ih =>
    intro X hX
    cases X with
    | nil => rfl
    | cons c rest =>
      have hrest : rest.length ≤ k := by
        simp only [List.length_cons] at hX
        omega
      rw [rewriteSpec_cons]
      by_cases hc : c = ':'
      · rw [if_pos hc, if_neg (by simp)]
        have hdlen : (rest.drop (rest.takeWhile wordChar).length).length ≤ k :=
          le_trans (by simp [List.length_drop]) hrest
        rw [ih _ hdlen, ← dropWhile_wordChar_eq_drop,
          List.takeWhile_append_dropWhile]
      · rw [if_neg hc, ih rest hrest]

/-- Helper: one `re.sub` pass for one name, followed by the spec-side
rewrite with the remaining names, equals the spec-side rewrite with that
name added to the map. -/
theorem rewriteSpec_reSub (n : List Char) (ns : List (List Char))
    (hne : n ≠ []) (hw : ∀ c ∈ n, wordChar c = true) :
    ∀ (k : Nat) (X : List Char), X.length ≤ k →
      rewriteSpec ns (reSubColonName n X) = rewriteSpec (n :: ns) X := by
  intro k
  induction k with
  | zero =>
    intro X hX
    rw [List.eq_nil_of_length_eq_zero (Nat.le_zero.mp hX)]
    rfl
  | succ k ih =>
    intro X hX
    cases X with
    | nil => rfl
    | cons c rest =>
      have hrest : rest.length ≤ k := by
        simp only [List.length_cons] at hX
        omega
      by_cases hc : c = ':'
      case neg =>
        have hcond : ¬(c = ':' ∧ n.isPrefixOf rest = true ∧
            headBoundary (rest.drop n.length) = true) := fun h => hc h.1
        rw [reSubColonName_cons, if_neg hcond,
          rewriteSpec_cons ns c (reSubColonName n rest), if_neg hc,
          rewriteSpec_cons (n :: ns) c rest, if_neg hc, ih rest hrest]
      case pos =>
        subst hc
        have hwAll : ∀ d ∈ rest.takeWhile wordChar, wordChar d = true :=
          fun d hd => List.mem_takeWhile_imp hd
        have hbt : headBoundary (rest.drop (rest.takeWhile wordChar).length) = true := by
          rw [← dropWhile_wordChar_eq_drop]
          exact headBoundary_dropWhile rest
        have hsplitrest : rest.takeWhile wordChar ++
            rest.drop (rest.takeWhile wordChar).length = rest := by
          rw [← dropWhile_wordChar_eq_drop]
          exact List.takeWhile_append_dropWhile wordChar rest
        have hdroplen : (rest.drop (rest.takeWhile wordChar).length).length ≤ k :=
          le_trans (by simp [List.length_drop]) hrest
        by_cases hm : n.isPrefixOf rest = true ∧ headBoundary (rest.drop n.length) = true
        · have hwn : rest.takeWhile wordChar = n :=
            (match_iff_takeWhile n rest hne hw).mp hm
          rw [reSubColonName_cons, if_pos ⟨rfl, hm.1, hm.2⟩,
            rewriteSpec_append_no_colon ns (pgPlaceholder n) _
              (pgPlaceholder_no_colon n hw)]
          have hlen2 : (rest.drop n.length).length ≤ k :=
            le_trans (by simp [List.length_drop]) hrest
          rw [ih (rest.drop n.length) hlen2,
            rewriteSpec_cons (n :: ns) ':' rest, if_pos rfl, hwn,
            if_pos ⟨hne, List.mem_cons_self n ns⟩]
        · have hwnn : rest.takeWhile wordChar ≠ n := by
            intro he
            exact hm ((match_iff_takeWhile n rest hne hw).mpr he)
          have hcond : ¬((':' : Char) = ':' ∧ n.isPrefixOf rest = true ∧
              headBoundary (rest.drop n.length) = true) :=
            fun h => hm ⟨h.2.1, h.2.2⟩
          rw [reSubColonName_cons, if_neg hcond]
          have hsub := reSubColonName_append_no_colon n (rest.takeWhile wordChar)
            (rest.drop (rest.takeWhile wordChar).length)
            (fun d hd => wordChar_ne_colon d (List.mem_takeWhile_imp hd))
          rw [hsplitrest] at hsub
          rw [hsub, rewriteSpec_cons ns ':' _, if_pos rfl]
          have htake : (rest.takeWhile wordChar ++
              reSubColonName n (rest.drop (rest.takeWhile wordChar).length)).takeWhile
                wordChar = rest.takeWhile wordChar :=
            takeWhile_word_append _ _ hwAll (headBoundary_reSubColonName n _ hbt)
          rw [htake, List.drop_left,
            ih (rest.drop (rest.takeWhile wordChar).length) hdroplen,
            rewriteSpec_cons (n :: ns) ':' rest, if_pos rfl]
          have hmem : (rest.takeWhile wordChar ≠ [] ∧
              rest.takeWhile wordChar ∈ n :: ns) ↔
              (rest.takeWhile wordChar ≠ [] ∧ rest.takeWhile wordChar ∈ ns) := by
            constructor
            · rintro ⟨h1, h2⟩
              rcases List.mem_cons.mp h2 with he | h2
              · exact absurd he hwnn
              · exact ⟨h1, h2⟩
            · rintro ⟨h1, h2⟩
              exact ⟨h1, List.mem_cons_of_mem n h2⟩
          by_cases hb2 : rest.takeWhile wordChar ≠ [] ∧ rest.takeWhile wordChar ∈ ns
          · rw [if_pos hb2, if_pos (hmem.mpr hb2)]
          · rw [if_neg hb2, if_neg (fun h => hb2 (hmem.mp h))]

/-- C8.  The Parameter Translator is exactly the spec-side rewrite: for
identifier-shaped parameter names (non-empty, made of word characters),
the per-name `re.sub` passes of
`_convert_named_parameters_to_psycopg` replace every occurrence of a
colon-prefixed identifier that is bounded on the right by a word
boundary and whose name is in the parameter map with the driver
placeholder `%(name)s`, and leave every colon-prefixed identifier whose
name is not in the map untouched. -/
theorem convert_named_parameters_matches_spec (names : List (List Char))
    (sql : List Char)
    (h : ∀ n ∈ names, n ≠ [] ∧ ∀ c ∈ n, wordChar c = true) :
    convert_named_parameters_to_psycopg sql names = rewriteSpec names sql := by
  induction names generalizing sql with
  | nil =>
    show sql = rewriteSpec [] sql
    exact (rewriteSpec_no_names sql.length sql le_rfl).symm
  | cons n ns ih =>
    have hn := h n (List.mem_cons_self n ns)
    show convert_named_parameters_to_psycopg (reSubColonName n sql) ns =
      rewriteSpec (n :: ns) sql
    rw [ih (reSubColonName n sql) (fun m hm => h m (List.mem_cons_of_mem n hm))]
    exact rewriteSpec_reSub n ns hn.1 hn.2 sql.length sql le_rfl

/-- Witness for C8 on a concrete statement and parameter map, also
evaluating one concrete rewrite. -/
theorem convert_named_parameters_matches_spec_witness :
    convert_named_parameters_to_psycopg (String.toList ":id = 1 AND x = :idx OR y = :other")
        [String.toList "id", String.toList "idx"] =
      String.toList "%(id)s = 1 AND x = %(idx)s OR y = :other" ∧
    convert_named_parameters_to_psycopg (String.toList ":id = 1 AND x = :idx OR y = :other")
        [String.toList "id", String.toList "idx"] =
      rewriteSpec [String.toList "id", String.toList "idx"]
        (String.toList ":id = 1 AND x = :idx OR y = :other") :=
  ⟨by decide,
    convert_named_parameters_matches_spec [String.toList "id", String.toList "idx"]
      (String.toList ":id = 1 AND x = :idx OR y = :other") (by decide)⟩
